import Mathlib

/-!
# Verification of the ray-tracing engine

A shallow embedding, in Lean 4, of the rendering core of a C++ Monte-Carlo
path tracer: the vector algebra (`Vec3.hpp`), rays (`Ray.hpp`), hit records
and face-normal orientation (`SceneBaseObject.hpp`), the primitive
intersection routines for spheres, infinite planes and parallelograms
(`Object.hpp`), the scene aggregate and the parallelepiped built from six
parallelogram faces (`Scene.hpp`), the metallic material constructor
(`Material.hpp`), the recursive radiance integrator `ray_color` and the
round-robin block scheduler (`RenderUtils.cpp`).

Modelling conventions:

* C++ `double` arithmetic is idealised as exact rational arithmetic (`ℚ`).
* The `+∞` used as the initial `t_max` is modelled by `⊤ : WithTop ℚ`; every
  intersection routine takes its upper bound in `WithTop ℚ`.
* `std::sqrt` has no rational counterpart, so wherever the source computes a
  square root (the sphere's `sqrtd`, the vector length inside
  `unit_vector`) the embedding takes the computed value as an extra
  argument; theorems constrain it by the defining equations
  `s * s = radicand ∧ 0 ≤ s`.
* Reference parameters written on success (`HitRecord& rec`) are modelled by
  state passing: each `hit` returns `Bool × HitRecord`, the returned record
  being the argument record when the boolean is `false` exactly when the
  source leaves the reference untouched.
* Virtual dispatch over primitives is modelled by the function type
  `HitFun`; materials are a type parameter `μ` together with explicit
  `emit` / `scatter` functions (scatter randomness is abstracted into the
  supplied scatter function).
* The C++ `int` recursion depth of `ray_color` is modelled by `ℕ`: the
  source's guard `depth <= 0` coincides with `depth = 0` on naturals.
-/

/-- 3-component vector from `Vec3.hpp`; doubles modelled as `ℚ`.
Used both for points/directions and RGB colors, as in the source. -/
structure Vec3 where
  x : ℚ
  y : ℚ
  z : ℚ
deriving DecidableEq, Repr

namespace Vec3

/-- `operator+` on `Vec3`. -/
def add (u v : Vec3) : Vec3 := ⟨u.x + v.x, u.y + v.y, u.z + v.z⟩

/-- `operator-` (binary) on `Vec3`. -/
def sub (u v : Vec3) : Vec3 := ⟨u.x - v.x, u.y - v.y, u.z - v.z⟩

/-- `operator-` (unary) on `Vec3`. -/
def neg (v : Vec3) : Vec3 := ⟨-v.x, -v.y, -v.z⟩

/-- component-wise `operator*(Vec3, Vec3)`. -/
def hmul (u v : Vec3) : Vec3 := ⟨u.x * v.x, u.y * v.y, u.z * v.z⟩

/-- scalar `operator*(double, Vec3)`. -/
def smul (t : ℚ) (v : Vec3) : Vec3 := ⟨t * v.x, t * v.y, t * v.z⟩

instance : Add Vec3 := ⟨add⟩

instance : Sub Vec3 := ⟨sub⟩

instance : Neg Vec3 := ⟨neg⟩

instance : Mul Vec3 := ⟨hmul⟩

instance : SMul ℚ Vec3 := ⟨smul⟩

/-- `operator/(Vec3, double)`: the source computes `(1/t) * v`. -/
def div (v : Vec3) (t : ℚ) : Vec3 := (1 / t) • v

/-- `dot` from `Vec3.hpp`. -/
def dot (u v : Vec3) : ℚ := u.x * v.x + u.y * v.y + u.z * v.z

/-- `cross` from `Vec3.hpp`. -/
def cross (u v : Vec3) : Vec3 :=
  ⟨u.y * v.z - u.z * v.y, u.z * v.x - u.x * v.z, u.x * v.y - u.y * v.x⟩

/-- `length_squared` from `Vec3.hpp`. -/
def lengthSquared (v : Vec3) : ℚ := v.x * v.x + v.y * v.y + v.z * v.z

/-- `unit_vector(v) = v / v.length()`: the irrational length is passed in as
`len`, constrained in theorems by `len * len = lengthSquared v ∧ 0 ≤ len`. -/
def unitVector (v : Vec3) (len : ℚ) : Vec3 := div v len

end Vec3

/-- `Ray` from `Ray.hpp`: origin plus direction. -/
structure Ray where
  orig : Vec3
  dir : Vec3
deriving DecidableEq, Repr

/-- `Ray::at(t) = orig + t * dir`. -/
def Ray.at (r : Ray) (t : ℚ) : Vec3 := r.orig + t • r.dir

/-- `HitRecord` from `SceneBaseObject.hpp`, parametric in the material
handle type `μ` (the source stores a `shared_ptr<Material>`). -/
structure HitRecord (μ : Type) where
  p : Vec3
  normal : Vec3
  t : ℚ
  front_face : Bool
  mat : μ
deriving DecidableEq, Repr

/-- `HitRecord::set_face_normal`: orient the stored normal against the
incoming ray (`front_face = dot(dir, outward) < 0`). -/
def HitRecord.setFaceNormal {μ : Type} (rec : HitRecord μ) (r : Ray)
    (outward : Vec3) : HitRecord μ :=
  { rec with
    front_face := decide (Vec3.dot r.dir outward < 0)
    normal := if Vec3.dot r.dir outward < 0 then outward else -outward }

/-- `Sphere` from `Object.hpp`: center, signed radius, material. -/
structure Sphere (μ : Type) where
  center : Vec3
  radius : ℚ
  mat : μ
deriving DecidableEq, Repr

namespace Sphere

/-- The `Sphere(cen, r, m)` constructor: stores its arguments unchanged
(no validation is performed). -/
def make {μ : Type} (cen : Vec3) (r : ℚ) (m : μ) : Sphere μ := ⟨cen, r, m⟩

/-- Quadratic coefficient `a = r.direction().length_squared()`. -/
def aCoeff {μ : Type} (_s : Sphere μ) (r : Ray) : ℚ := r.dir.lengthSquared

/-- `half_b = dot(oc, r.direction())` with `oc = origin - center`. -/
def halfB {μ : Type} (s : Sphere μ) (r : Ray) : ℚ :=
  Vec3.dot (r.orig - s.center) r.dir

/-- `c = oc.length_squared() - radius*radius`. -/
def cCoeff {μ : Type} (s : Sphere μ) (r : Ray) : ℚ :=
  (r.orig - s.center).lengthSquared - s.radius * s.radius

/-- `discriminant = half_b*half_b - a*c`. -/
def disc {μ : Type} (s : Sphere μ) (r : Ray) : ℚ :=
  s.halfB r * s.halfB r - s.aCoeff r * s.cCoeff r

/-- The root tried first, `(-half_b - sqrtd) / a` (the smaller one when
`a > 0` and `0 ≤ sqrtd`). -/
def root1 {μ : Type} (s : Sphere μ) (r : Ray) (sqrtd : ℚ) : ℚ :=
  (-s.halfB r - sqrtd) / s.aCoeff r

/-- The fallback root `(-half_b + sqrtd) / a`. -/
def root2 {μ : Type} (s : Sphere μ) (r : Ray) (sqrtd : ℚ) : ℚ :=
  (-s.halfB r + sqrtd) / s.aCoeff r

/-- The record the source fills on a sphere hit at parameter `root`:
`rec.t`, `rec.p`, then `set_face_normal` with outward normal
`(p - center) / radius` (division by the signed radius), then the material. -/
def record {μ : Type} (s : Sphere μ) (r : Ray) (root : ℚ)
    (rec : HitRecord μ) : HitRecord μ :=
  let p := r.at root
  let outward := Vec3.div (p - s.center) s.radius
  ({ rec with t := root, p := p, mat := s.mat } : HitRecord μ).setFaceNormal
    r outward

/-- `Sphere::hit` from `Object.hpp`. `sqrtd` stands for the source's
`sqrt(discriminant)` (constrained in theorems); the `t_max` bound lives in
`WithTop ℚ` so that the integrator's `infinity` is representable. -/
def hit {μ : Type} (s : Sphere μ) (r : Ray) (tMin : ℚ) (tMax : WithTop ℚ)
    (sqrtd : ℚ) (rec : HitRecord μ) : Bool × HitRecord μ :=
  if s.disc r < 0 then (false, rec)
  else
    let rt := s.root1 r sqrtd
    if rt < tMin ∨ tMax < (rt : WithTop ℚ) then
      let rt2 := s.root2 r sqrtd
      if rt2 < tMin ∨ tMax < (rt2 : WithTop ℚ) then (false, rec)
      else (true, s.record r rt2 rec)
    else (true, s.record r rt rec)

end Sphere

/-- `Plane` from `Object.hpp`: fixed point, stored (normalised) normal,
material. -/
structure Plane (μ : Type) where
  point : Vec3
  normal : Vec3
  mat : μ
deriving DecidableEq, Repr

namespace Plane

/-- The `Plane(p, n, m)` constructor: stores `unit_vector(n)`; `len` stands
for the source's `n.length()` inside `unit_vector`. No validation is
performed (a zero normal is accepted). -/
def make {μ : Type} (p n : Vec3) (len : ℚ) (m : μ) : Plane μ :=
  ⟨p, Vec3.unitVector n len, m⟩

/-- `Plane::hit` from `Object.hpp`. -/
def hit {μ : Type} (pl : Plane μ) (r : Ray) (tMin : ℚ) (tMax : WithTop ℚ)
    (rec : HitRecord μ) : Bool × HitRecord μ :=
  let denom := Vec3.dot r.dir pl.normal
  if |denom| < 1 / 1000000 then (false, rec)
  else
    let t := Vec3.dot (pl.point - r.orig) pl.normal / denom
    if t < tMin ∨ tMax < (t : WithTop ℚ) then (false, rec)
    else
      (true,
        ({ rec with t := t, p := r.at t, mat := pl.mat } :
            HitRecord μ).setFaceNormal r pl.normal)

end Plane

/-- `Parallelogram` from `Object.hpp`: vertex `Q`, edges `u`, `v`, and the
cached `normal`, `D`, `w` computed by the constructor. -/
structure Parallelogram (μ : Type) where
  Q : Vec3
  u : Vec3
  v : Vec3
  normal : Vec3
  D : ℚ
  w : Vec3
  mat : μ
deriving DecidableEq, Repr

namespace Parallelogram

/-- The `Parallelogram(Q, u, v, m)` constructor: caches
`normal = unit_vector(u × v)`, `D = normal · Q`, `w = n / (n · n)` where
`n = u × v`; `len` stands for `n.length()` inside `unit_vector`. No
validation is performed (parallel edges are accepted). -/
def make {μ : Type} (Q u v : Vec3) (len : ℚ) (m : μ) : Parallelogram μ :=
  let n := Vec3.cross u v
  let nrm := Vec3.unitVector n len
  ⟨Q, u, v, nrm, Vec3.dot nrm Q, Vec3.div n (Vec3.dot n n), m⟩

/-- `Parallelogram::hit` from `Object.hpp`. -/
def hit {μ : Type} (pg : Parallelogram μ) (r : Ray) (tMin : ℚ)
    (tMax : WithTop ℚ) (rec : HitRecord μ) : Bool × HitRecord μ :=
  let denom := Vec3.dot pg.normal r.dir
  if |denom| < 1 / 100000000 then (false, rec)
  else
    let t := (pg.D - Vec3.dot pg.normal r.orig) / denom
    if t < tMin ∨ tMax < (t : WithTop ℚ) then (false, rec)
    else
      let intersection := r.at t
      let planarHitpt := intersection - pg.Q
      let alpha := Vec3.dot pg.w (Vec3.cross planarHitpt pg.v)
      let beta := Vec3.dot pg.w (Vec3.cross pg.u planarHitpt)
      if alpha < 0 ∨ alpha > 1 ∨ beta < 0 ∨ beta > 1 then (false, rec)
      else
        (true,
          ({ rec with t := t, p := intersection, mat := pg.mat } :
              HitRecord μ).setFaceNormal r pg.normal)

end Parallelogram

/-- The virtual `SceneBaseObject::hit` interface: ray, `t_min`, `t_max`
(possibly `⊤`), record in; success flag and record out. -/
def HitFun (μ : Type) : Type :=
  Ray → ℚ → WithTop ℚ → HitRecord μ → Bool × HitRecord μ

/-- `Plane::hit` seen through the virtual interface. -/
def Plane.toHitFun {μ : Type} (pl : Plane μ) : HitFun μ :=
  fun r tMin tMax rec => pl.hit r tMin tMax rec

/-- `Parallelogram::hit` seen through the virtual interface. -/
def Parallelogram.toHitFun {μ : Type} (pg : Parallelogram μ) : HitFun μ :=
  fun r tMin tMax rec => pg.hit r tMin tMax rec

/-- The loop body of `Scene::hit` from `Scene.hpp`: iterate the objects in
order, querying each over `[t_min, closest_so_far]` against the scratch
record `temp_rec`; on success shrink `closest_so_far` to the new `t`, set
`hit_anything` and copy `temp_rec` into `rec`. -/
def sceneHitLoop {μ : Type} (r : Ray) (tMin : ℚ) :
    List (HitFun μ) → WithTop ℚ → HitRecord μ → Bool → HitRecord μ →
    Bool × HitRecord μ
  | [], _, _, hitAnything, rec => (hitAnything, rec)
  | o :: rest, closest, temp, hitAnything, rec =>
    let res := o r tMin closest temp
    if res.1 then
      sceneHitLoop r tMin rest ((res.2.t : ℚ) : WithTop ℚ) res.2 true res.2
    else
      sceneHitLoop r tMin rest closest res.2 hitAnything rec

/-- `Scene::hit` from `Scene.hpp`. `temp₀` is the (indeterminately
initialised) local `temp_rec`; `hit_anything` starts `false` and
`closest_so_far` starts at `t_max`. -/
def sceneHit {μ : Type} (objs : List (HitFun μ)) (r : Ray) (tMin : ℚ)
    (tMax : WithTop ℚ) (temp₀ rec : HitRecord μ) : Bool × HitRecord μ :=
  sceneHitLoop r tMin objs tMax temp₀ false rec

/-- `Scene::add`: push the object at the back of the list. -/
def sceneAdd {μ : Type} (objs : List (HitFun μ)) (o : HitFun μ) :
    List (HitFun μ) :=
  objs ++ [o]

/-- A scene seen through the virtual interface (fixing the scratch record). -/
def sceneToHitFun {μ : Type} (objs : List (HitFun μ)) (temp₀ : HitRecord μ) :
    HitFun μ :=
  fun r tMin tMax rec => sceneHit objs r tMin tMax temp₀ rec

/-- An abstract member primitive determined by an optional candidate record
`cand`: it reports a hit with record `h` exactly when `cand = some h` and
`h.t` lies in the queried interval, and leaves the record untouched
otherwise. For a fixed `t_min` this is how each concrete primitive responds
to the scene loop's shrinking `t_max` (see `plane_toHitFun_isCandidate`
and `parallelogram_toHitFun_isCandidate`). -/
def candidateHit {μ : Type} (cand : Option (HitRecord μ)) : HitFun μ :=
  fun _r tMin tMax rec =>
    match cand with
    | none => (false, rec)
    | some h =>
      if tMin ≤ h.t ∧ (h.t : WithTop ℚ) ≤ tMax then (true, h) else (false, rec)

/-- The `Parallelepiped(origin, u, v, w, m)` constructor from `Scene.hpp`:
it `add`s six `Parallelogram`s to its own (initially empty) object list —
front, back, top, bottom, right, left, in that order. `lenUV`, `lenUW`,
`lenVW` stand for the lengths of `u×v`, `u×w`, `v×w` computed inside the
respective `Parallelogram` constructors. -/
def parallelepipedFaces {μ : Type} (origin u v w : Vec3)
    (lenUV lenUW lenVW : ℚ) (m : μ) : List (HitFun μ) :=
  sceneAdd (sceneAdd (sceneAdd (sceneAdd (sceneAdd (sceneAdd []
    (Parallelogram.toHitFun (Parallelogram.make origin u v lenUV m)))
    (Parallelogram.toHitFun (Parallelogram.make (origin + w) u v lenUV m)))
    (Parallelogram.toHitFun (Parallelogram.make (origin + v) u w lenUW m)))
    (Parallelogram.toHitFun (Parallelogram.make origin u w lenUW m)))
    (Parallelogram.toHitFun (Parallelogram.make (origin + u) v w lenVW m)))
    (Parallelogram.toHitFun (Parallelogram.make origin v w lenVW m))

/-- Modelled from the spec: "the six corresponding parallelogram faces added
individually" to a scene — the face anchored at the origin and its translate
for each of the three edge pairs `(u,v)`, `(u,w)`, `(v,w)`. -/
def sixFaceScene {μ : Type} (origin u v w : Vec3)
    (lenUV lenUW lenVW : ℚ) (m : μ) : List (HitFun μ) :=
  [Parallelogram.toHitFun (Parallelogram.make origin u v lenUV m),
   Parallelogram.toHitFun (Parallelogram.make (origin + w) u v lenUV m),
   Parallelogram.toHitFun (Parallelogram.make (origin + v) u w lenUW m),
   Parallelogram.toHitFun (Parallelogram.make origin u w lenUW m),
   Parallelogram.toHitFun (Parallelogram.make (origin + u) v w lenVW m),
   Parallelogram.toHitFun (Parallelogram.make origin v w lenVW m)]

/-- `Metal` from `Material.hpp`: albedo color and fuzz factor. -/
structure Metal where
  albedo : Vec3
  fuzz : ℚ
deriving DecidableEq, Repr

/-- The `Metal(a, f)` constructor: `fuzz(f < 1 ? f : 1)` — only the upper
side is clamped. -/
def Metal.make (a : Vec3) (f : ℚ) : Metal := ⟨a, if f < 1 then f else 1⟩

/-- `ray_color` from `RenderUtils.cpp`, parametric in the material type `μ`
with its `emit` and `scatter` operations (`scatter` returns the attenuation
and scattered ray, or `none` for absorption), and in the world's `hit`
function. `rec₀` is the indeterminately initialised local `HitRecord rec`.
Depth is a natural number: the source's `depth <= 0` guard is `depth = 0`. -/
def ray_color {μ : Type} (emit : μ → Vec3 → Vec3)
    (scatter : μ → Ray → HitRecord μ → Option (Vec3 × Ray))
    (worldHit : HitFun μ) (rec₀ : HitRecord μ) :
    Ray → ℕ → Vec3 → Vec3
  | _, 0, _ => ⟨0, 0, 0⟩
  | r, depth + 1, bg =>
    let res := worldHit r (1 / 1000) ⊤ rec₀
    if res.1 then
      let hitRec := res.2
      let emitted := emit hitRec.mat hitRec.p
      match scatter hitRec.mat r hitRec with
      | none => emitted
      | some (attenuation, scattered) =>
        emitted +
          attenuation * ray_color emit scatter worldHit rec₀ scattered depth bg
    else bg

/-- `total_blocks = (image_height + block_size - 1) / block_size` from
`render_blocks_round_robin`. -/
def totalBlocks (imageHeight blockSize : ℕ) : ℕ :=
  (imageHeight + blockSize - 1) / blockSize

/-- The block indices `thread_id, thread_id + num_threads, …` processed by
one worker: the source's `for (block_idx = t; block_idx < total; block_idx
+= T)` loop (which does not terminate for `T = 0`, hence the guard). -/
def rrBlocks (total numThreads : ℕ) : ℕ → List ℕ
  | b =>
    if _h : b < total ∧ 0 < numThreads then
      b :: rrBlocks total numThreads (b + numThreads)
    else []
termination_by b => total - b
decreasing_by omega

/-- The rows `j` of one block, from `block_start_j = H - 1 - b·B` down to
`block_end_j = max(0, block_start_j - B + 1)` (natural subtraction realises
the `max` with `0`). -/
def blockRows (imageHeight blockSize b : ℕ) : List ℕ :=
  let start := imageHeight - 1 - b * blockSize
  let stop := start + 1 - blockSize
  (List.range (start - stop + 1)).map (fun k => start - k)

/-- The pixel-buffer indices written for row `j`:
`idx = (H - 1 - j) * W + i` for `i = 0, …, W-1`. -/
def rowWrites (imageWidth imageHeight j : ℕ) : List ℕ :=
  (List.range imageWidth).map (fun i => (imageHeight - 1 - j) * imageWidth + i)

/-- All pixel-buffer indices written by worker `t` in
`render_blocks_round_robin`. -/
def workerWrites (imageWidth imageHeight blockSize numThreads t : ℕ) :
    List ℕ :=
  (rrBlocks (totalBlocks imageHeight blockSize) numThreads t).flatMap
    (fun b => (blockRows imageHeight blockSize b).flatMap
      (rowWrites imageWidth imageHeight))

namespace Vec3

@[simp] lemma add_x (u v : Vec3) : (u + v).x = u.x + v.x := rfl

@[simp] lemma add_y (u v : Vec3) : (u + v).y = u.y + v.y := rfl

@[simp] lemma add_z (u v : Vec3) : (u + v).z = u.z + v.z := rfl

@[simp] lemma sub_x (u v : Vec3) : (u - v).x = u.x - v.x := rfl

@[simp] lemma sub_y (u v : Vec3) : (u - v).y = u.y - v.y := rfl

@[simp] lemma sub_z (u v : Vec3) : (u - v).z = u.z - v.z := rfl

@[simp] lemma neg_x (v : Vec3) : (-v).x = -v.x := rfl

@[simp] lemma neg_y (v : Vec3) : (-v).y = -v.y := rfl

@[simp] lemma neg_z (v : Vec3) : (-v).z = -v.z := rfl

@[simp] lemma hmul_x (u v : Vec3) : (u * v).x = u.x * v.x := rfl

@[simp] lemma hmul_y (u v : Vec3) : (u * v).y = u.y * v.y := rfl

@[simp] lemma hmul_z (u v : Vec3) : (u * v).z = u.z * v.z := rfl

@[simp] lemma smul_x (t : ℚ) (v : Vec3) : (t • v).x = t * v.x := rfl

@[simp] lemma smul_y (t : ℚ) (v : Vec3) : (t • v).y = t * v.y := rfl

@[simp] lemma smul_z (t : ℚ) (v : Vec3) : (t • v).z = t * v.z := rfl

@[simp] lemma div_x (v : Vec3) (t : ℚ) : (div v t).x = 1 / t * v.x := rfl

@[simp] lemma div_y (v : Vec3) (t : ℚ) : (div v t).y = 1 / t * v.y := rfl

@[simp] lemma div_z (v : Vec3) (t : ℚ) : (div v t).z = 1 / t * v.z := rfl

lemma dot_neg_right (u v : Vec3) : dot u (-v) = -dot u v := by
  simp [dot]; ring

lemma lengthSquared_neg (v : Vec3) : lengthSquared (-v) = lengthSquared v := by
  simp [lengthSquared]

/-- `|P(t) - c|²` expanded in the quadratic coefficients. -/
lemma lengthSquared_at_sub (r : Ray) (c : Vec3) (t : ℚ) :
    lengthSquared (r.at t - c) =
      lengthSquared (r.orig - c) + 2 * t * dot (r.orig - c) r.dir +
        t * t * lengthSquared r.dir := by
  simp [Ray.at, lengthSquared, dot]; ring

lemma lengthSquared_div (v : Vec3) (t : ℚ) :
    lengthSquared (div v t) = 1 / (t * t) * lengthSquared v := by
  simp [lengthSquared]; ring

end Vec3

namespace HitRecord

lemma setFaceNormal_t {μ : Type} (rec : HitRecord μ) (r : Ray) (o : Vec3) :
    (rec.setFaceNormal r o).t = rec.t := rfl

lemma setFaceNormal_p {μ : Type} (rec : HitRecord μ) (r : Ray) (o : Vec3) :
    (rec.setFaceNormal r o).p = rec.p := rfl

/-- The oriented normal has the same squared length as the outward one. -/
lemma lengthSquared_setFaceNormal {μ : Type} (rec : HitRecord μ) (r : Ray)
    (o : Vec3) :
    Vec3.lengthSquared (rec.setFaceNormal r o).normal =
      Vec3.lengthSquared o := by
  unfold setFaceNormal
  split
  · rfl
  · exact Vec3.lengthSquared_neg o

/-- The oriented normal opposes the incoming ray direction. -/
lemma dot_setFaceNormal_nonpos {μ : Type} (rec : HitRecord μ) (r : Ray)
    (o : Vec3) :
    Vec3.dot r.dir (rec.setFaceNormal r o).normal ≤ 0 := by
  unfold setFaceNormal
  split
  · next h => exact le_of_lt h
  · next h =>
    rw [Vec3.dot_neg_right]
    push_neg at h
    linarith

end HitRecord

/-- Once `hit_anything` is `true`, the loop's result flag stays `true`;
symmetrically, a `false` result means no member ever hit, and then `rec`
was never assigned. -/
lemma sceneHitLoop_false {μ : Type} (r : Ray) (tMin : ℚ) :
    ∀ (objs : List (HitFun μ)) (closest : WithTop ℚ) (temp : HitRecord μ)
      (flag : Bool) (rec out : HitRecord μ),
      sceneHitLoop r tMin objs closest temp flag rec = (false, out) →
      flag = false ∧ out = rec := by
  intro objs
  induction objs with
  | nil =>
    intro closest temp flag rec out h
    simp only [sceneHitLoop] at h
    exact ⟨(Prod.mk.injEq _ _ _ _ ▸ h).1, ((Prod.mk.injEq _ _ _ _ ▸ h).2).symm⟩
  | cons o rest ih =>
    intro closest temp flag rec out h
    simp only [sceneHitLoop] at h
    split at h
    · have := ih _ _ _ _ _ h
      exact absurd this.1 (by simp)
    · exact ih _ _ _ _ _ h

/-- A concrete hit record over the trivial material type, used to
instantiate witnesses. -/
def unitRec : HitRecord Unit := ⟨⟨0, 0, 0⟩, ⟨0, 0, 1⟩, 0, true, ()⟩

/-- A concrete ray along the `x`-axis from `(0,0,-2)`. -/
def rayX : Ray := ⟨⟨0, 0, -2⟩, ⟨1, 0, 0⟩⟩

/-- A concrete ray along the `z`-axis from the origin. -/
def rayZ : Ray := ⟨⟨0, 0, 0⟩, ⟨0, 0, 1⟩⟩

/-- C1. The integrator `ray_color` returns black at exhausted depth; the
background color when the world reports no hit over `[10⁻³, +∞)`; exactly
the emitted color when `scatter` reports absorption; and otherwise emitted
plus the component-wise product of the attenuation with `ray_color` of the
scattered ray at `depth - 1`. -/
theorem C1_ray_color_cases {μ : Type} (emit : μ → Vec3 → Vec3)
    (scatter : μ → Ray → HitRecord μ → Option (Vec3 × Ray))
    (worldHit : HitFun μ) (rec₀ : HitRecord μ) (r : Ray) (bg : Vec3) :
    (ray_color emit scatter worldHit rec₀ r 0 bg = ⟨0, 0, 0⟩) ∧
    (∀ depth, 1 ≤ depth → (worldHit r (1 / 1000) ⊤ rec₀).1 = false →
      ray_color emit scatter worldHit rec₀ r depth bg = bg) ∧
    (∀ depth hrec, 1 ≤ depth →
      worldHit r (1 / 1000) ⊤ rec₀ = (true, hrec) →
      scatter hrec.mat r hrec = none →
      ray_color emit scatter worldHit rec₀ r depth bg =
        emit hrec.mat hrec.p) ∧
    (∀ depth hrec att sc, 1 ≤ depth →
      worldHit r (1 / 1000) ⊤ rec₀ = (true, hrec) →
      scatter hrec.mat r hrec = some (att, sc) →
      ray_color emit scatter worldHit rec₀ r depth bg =
        emit hrec.mat hrec.p +
          att * ray_color emit scatter worldHit rec₀ sc (depth - 1) bg) := by
  refine ⟨rfl, ?_, ?_, ?_⟩
  · intro depth hd hmiss
    obtain ⟨d, rfl⟩ : ∃ d, depth = d + 1 := ⟨depth - 1, by omega⟩
    simp only [ray_color]
    rw [hmiss]
    simp
  · intro depth hrec hd hw hsc
    obtain ⟨d, rfl⟩ : ∃ d, depth = d + 1 := ⟨depth - 1, by omega⟩
    simp only [ray_color]
    rw [hw]
    simp [hsc]
  · intro depth hrec att sc hd hw hsc
    obtain ⟨d, rfl⟩ : ∃ d, depth = d + 1 := ⟨depth - 1, by omega⟩
    simp only [ray_color]
    rw [hw]
    simp [hsc]

/-- Witness for C1: the four cases evaluated on concrete data — a missing
world, a hitting world with an absorbing material, and a hitting world with
a scattering material. -/
theorem C1_ray_color_cases_witness :
    (ray_color (fun (_ : Unit) _ => (⟨1, 2, 3⟩ : Vec3)) (fun _ _ _ => none)
      (fun _ _ _ rec => (false, rec)) unitRec rayZ 0 ⟨9, 9, 9⟩ = ⟨0, 0, 0⟩) ∧
    (ray_color (fun (_ : Unit) _ => (⟨1, 2, 3⟩ : Vec3)) (fun _ _ _ => none)
      (fun _ _ _ rec => (false, rec)) unitRec rayZ 5 ⟨9, 9, 9⟩ = ⟨9, 9, 9⟩) ∧
    (ray_color (fun (_ : Unit) _ => (⟨1, 2, 3⟩ : Vec3)) (fun _ _ _ => none)
      (fun _ _ _ _ => (true, unitRec)) unitRec rayZ 5 ⟨9, 9, 9⟩ = ⟨1, 2, 3⟩) ∧
    (ray_color (fun (_ : Unit) _ => (⟨1, 2, 3⟩ : Vec3))
      (fun _ _ _ => some (⟨2, 2, 2⟩, rayX))
      (fun _ _ _ _ => (true, unitRec)) unitRec rayZ 5 ⟨9, 9, 9⟩ =
      ⟨1, 2, 3⟩ +
        (⟨2, 2, 2⟩ : Vec3) *
          ray_color (fun (_ : Unit) _ => (⟨1, 2, 3⟩ : Vec3))
            (fun _ _ _ => some (⟨2, 2, 2⟩, rayX))
            (fun _ _ _ _ => (true, unitRec)) unitRec rayX 4 ⟨9, 9, 9⟩) :=
  ⟨(C1_ray_color_cases _ _ _ _ _ _).1,
   (C1_ray_color_cases _ _ _ _ _ _).2.1 5 (by norm_num) rfl,
   (C1_ray_color_cases _ _ _ _ _ _).2.2.1 5 unitRec (by norm_num) rfl rfl,
   (C1_ray_color_cases _ _ _ _ _ _).2.2.2 5 unitRec ⟨2, 2, 2⟩ rayX
     (by norm_num) rfl rfl⟩

/-- C6. A `Parallelepiped` built from an origin and edges `u`, `v`, `w`
produces, on every ray, interval and record state, exactly the same
intersection result as a scene holding the six corresponding parallelogram
faces added individually. -/
theorem C6_parallelepiped_is_six_faces {μ : Type} (origin u v w : Vec3)
    (lenUV lenUW lenVW : ℚ) (m : μ) (r : Ray) (tMin : ℚ) (tMax : WithTop ℚ)
    (temp₀ rec₀ : HitRecord μ) :
    sceneHit (parallelepipedFaces origin u v w lenUV lenUW lenVW m) r tMin
        tMax temp₀ rec₀ =
      sceneHit (sixFaceScene origin u v w lenUV lenUW lenVW m) r tMin tMax
        temp₀ rec₀ := rfl

/-- Counterexample to C7 as stated: constructing the metallic material with
fuzziness `-1` stores `-1`, which does not lie in `[0, 1]` — the
constructor clamps only from above. -/
theorem C7_counterexample :
    ¬(0 ≤ (Metal.make ⟨1, 1, 1⟩ (-1)).fuzz ∧
        (Metal.make ⟨1, 1, 1⟩ (-1)).fuzz ≤ 1) := by
  norm_num [Metal.make]

/-- C7 (amended). The metallic constructor stores `min f 1`: fuzziness is
clamped from above at `1` (never rejected), so the stored value is always
`≤ 1`, and lies in `[0, 1]` whenever the argument is non-negative; negative
arguments are stored unchanged. -/
theorem C7_metal_fuzz_clamped_above (a : Vec3) (f : ℚ) :
    (Metal.make a f).fuzz = min f 1 ∧ (Metal.make a f).fuzz ≤ 1 ∧
      (0 ≤ f → 0 ≤ (Metal.make a f).fuzz ∧ (Metal.make a f).fuzz ≤ 1) := by
  unfold Metal.make
  constructor
  · dsimp only
    split
    · next h => exact (min_eq_left (le_of_lt h)).symm
    · next h => exact (min_eq_right (by linarith [not_lt.mp h])).symm
  · constructor
    · dsimp only
      split
      · next h => exact le_of_lt h
      · exact le_refl 1
    · intro hf
      dsimp only
      refine ⟨?_, ?_⟩ <;> split <;> first | assumption | norm_num
      · next h => exact le_of_lt h

/-- Witness for C7 (amended): fuzziness `1/2` is stored unchanged and lies
in `[0,1]`; fuzziness `7` is clamped to `1`. -/
theorem C7_metal_fuzz_clamped_above_witness :
    ((Metal.make ⟨1, 1, 1⟩ (1 / 2)).fuzz = min (1 / 2) 1 ∧
      0 ≤ (Metal.make ⟨1, 1, 1⟩ (1 / 2)).fuzz ∧
        (Metal.make ⟨1, 1, 1⟩ (1 / 2)).fuzz ≤ 1) ∧
    (Metal.make ⟨1, 1, 1⟩ 7).fuzz = min 7 1 :=
  ⟨⟨(C7_metal_fuzz_clamped_above ⟨1, 1, 1⟩ (1 / 2)).1,
    (C7_metal_fuzz_clamped_above ⟨1, 1, 1⟩ (1 / 2)).2.2 (by norm_num)⟩,
   (C7_metal_fuzz_clamped_above ⟨1, 1, 1⟩ 7).1⟩

/-- Counterexample to C8 as stated: constructing a sphere with zero radius
does not fail — the constructor is a total function that returns the
degenerate sphere with `radius = 0` stored — and intersection with it still
runs and silently reports a miss, so the error is detected neither at
construction time nor loudly anywhere else. -/
theorem C8_counterexample :
    Sphere.make ⟨0, 0, 0⟩ 0 () = ⟨⟨0, 0, 0⟩, 0, ()⟩ ∧
      (Sphere.make ⟨0, 0, 0⟩ 0 ()).hit rayX 0 ⊤ 0 unitRec =
        (false, unitRec) := by
  refine ⟨rfl, ?_⟩
  norm_num [Sphere.hit, Sphere.make, Sphere.disc, Sphere.aCoeff, Sphere.halfB,
    Sphere.cCoeff, Vec3.dot, Vec3.lengthSquared, rayX, unitRec]

/-- C8 (amended). The primitive constructors perform no validation:
a sphere with zero radius, a plane with a zero normal vector and a
parallelogram with parallel edge vectors are each accepted at construction,
their degenerate inputs stored unchanged; no failure occurs at construction
time. -/
theorem C8_no_construction_validation {μ : Type} :
    (∀ (cen : Vec3) (m : μ),
      Sphere.make cen 0 m = ⟨cen, 0, m⟩) ∧
    (∀ (p : Vec3) (len : ℚ) (m : μ),
      (Plane.make p ⟨0, 0, 0⟩ len m).point = p ∧
        (Plane.make p ⟨0, 0, 0⟩ len m).mat = m) ∧
    (∀ (Q u : Vec3) (k len : ℚ) (m : μ),
      (Parallelogram.make Q u (k • u) len m).Q = Q ∧
        (Parallelogram.make Q u (k • u) len m).u = u ∧
        (Parallelogram.make Q u (k • u) len m).v = k • u ∧
        (Parallelogram.make Q u (k • u) len m).mat = m) :=
  ⟨fun _ _ => rfl, fun _ _ _ => ⟨rfl, rfl⟩,
   fun _ _ _ _ _ => ⟨rfl, rfl, rfl, rfl⟩⟩

/-- C9. With a scene containing zero primitives the integrator still runs:
for every ray, background and depth ≥ 1 it returns exactly the background
color. -/
theorem C9_empty_scene_background {μ : Type} (emit : μ → Vec3 → Vec3)
    (scatter : μ → Ray → HitRecord μ → Option (Vec3 × Ray))
    (temp₀ rec₀ : HitRecord μ) (r : Ray) (bg : Vec3) (depth : ℕ)
    (hd : 1 ≤ depth) :
    ray_color emit scatter (sceneToHitFun [] temp₀) rec₀ r depth bg = bg := by
  obtain ⟨d, rfl⟩ : ∃ d, depth = d + 1 := ⟨depth - 1, by omega⟩
  simp [ray_color, sceneToHitFun, sceneHit, sceneHitLoop]

/-- Witness for C9 at a concrete ray, background and depth. -/
theorem C9_empty_scene_background_witness :
    ray_color (fun (_ : Unit) _ => (⟨0, 0, 0⟩ : Vec3)) (fun _ _ _ => none)
        (sceneToHitFun [] unitRec) unitRec rayZ 50 ⟨1, 2, 3⟩ = ⟨1, 2, 3⟩ :=
  C9_empty_scene_background _ _ _ _ _ _ _ (by norm_num)

/-- C10. Whenever a `hit` call reports a miss — for a sphere, a plane, a
parallelogram or a whole scene — the caller's hit record comes back exactly
as it went in: no field is written on a miss. -/
theorem C10_miss_leaves_record {μ : Type} :
    (∀ (s : Sphere μ) (r : Ray) (tMin : ℚ) (tMax : WithTop ℚ) (sqrtd : ℚ)
      (rec out : HitRecord μ),
      s.hit r tMin tMax sqrtd rec = (false, out) → out = rec) ∧
    (∀ (pl : Plane μ) (r : Ray) (tMin : ℚ) (tMax : WithTop ℚ)
      (rec out : HitRecord μ),
      pl.hit r tMin tMax rec = (false, out) → out = rec) ∧
    (∀ (pg : Parallelogram μ) (r : Ray) (tMin : ℚ) (tMax : WithTop ℚ)
      (rec out : HitRecord μ),
      pg.hit r tMin tMax rec = (false, out) → out = rec) ∧
    (∀ (objs : List (HitFun μ)) (r : Ray) (tMin : ℚ) (tMax : WithTop ℚ)
      (temp₀ rec out : HitRecord μ),
      sceneHit objs r tMin tMax temp₀ rec = (false, out) → out = rec) := by
  refine ⟨?_, ?_, ?_, ?_⟩
  · intro s r tMin tMax sqrtd rec out h
    simp only [Sphere.hit] at h
    split at h
    · exact ((Prod.mk.injEq _ _ _ _ ▸ h).2).symm
    · split at h
      · split at h
        · exact ((Prod.mk.injEq _ _ _ _ ▸ h).2).symm
        · exact absurd (Prod.mk.injEq _ _ _ _ ▸ h).1 (by simp)
      · exact absurd (Prod.mk.injEq _ _ _ _ ▸ h).1 (by simp)
  · intro pl r tMin tMax rec out h
    simp only [Plane.hit] at h
    split at h
    · exact ((Prod.mk.injEq _ _ _ _ ▸ h).2).symm
    · split at h
      · exact ((Prod.mk.injEq _ _ _ _ ▸ h).2).symm
      · exact absurd (Prod.mk.injEq _ _ _ _ ▸ h).1 (by simp)
  · intro pg r tMin tMax rec out h
    simp only [Parallelogram.hit] at h
    split at h
    · exact ((Prod.mk.injEq _ _ _ _ ▸ h).2).symm
    · split at h
      · exact ((Prod.mk.injEq _ _ _ _ ▸ h).2).symm
      · split at h
        · exact ((Prod.mk.injEq _ _ _ _ ▸ h).2).symm
        · exact absurd (Prod.mk.injEq _ _ _ _ ▸ h).1 (by simp)
  · intro objs r tMin tMax temp₀ rec out h
    exact (sceneHitLoop_false r tMin objs tMax temp₀ false rec out h).2

/-- Witness for C10: concrete misses for all four primitive kinds leave the
concrete record untouched. -/
theorem C10_miss_leaves_record_witness :
    ((Sphere.make ⟨0, 0, 5⟩ 1 ()).hit rayX 0 ⊤ 0 unitRec =
        (false, unitRec) → unitRec = unitRec) ∧
      unitRec = unitRec ∧ unitRec = unitRec ∧ unitRec = unitRec :=
  ⟨fun h => C10_miss_leaves_record.1 _ rayX 0 ⊤ 0 unitRec unitRec h,
   C10_miss_leaves_record.2.1 (Plane.make ⟨0, 0, 0⟩ ⟨0, 0, 1⟩ 1 ()) rayX 0
     ((1 : ℚ) : WithTop ℚ) unitRec unitRec (by
       norm_num [Plane.hit, Plane.make, Vec3.unitVector, Vec3.dot, rayX,
         unitRec]),
   C10_miss_leaves_record.2.2.1
     (Parallelogram.make ⟨5, 5, 5⟩ ⟨1, 0, 0⟩ ⟨0, 1, 0⟩ 1 ()) rayX 0
     ((1 : ℚ) : WithTop ℚ) unitRec unitRec (by
       norm_num [Parallelogram.hit, Parallelogram.make, Vec3.unitVector,
         Vec3.dot, Vec3.cross, rayX, unitRec]),
   C10_miss_leaves_record.2.2.2 [] rayZ 0 ⊤ unitRec unitRec unitRec rfl⟩

lemma Vec3.ext_xyz {u v : Vec3} (hx : u.x = v.x) (hy : u.y = v.y)
    (hz : u.z = v.z) : u = v := by
  cases u; cases v; simp_all

@[simp] lemma Vec3.add_mk (a b c d e f : ℚ) :
    (⟨a, b, c⟩ + ⟨d, e, f⟩ : Vec3) = ⟨a + d, b + e, c + f⟩ := rfl

@[simp] lemma Vec3.sub_mk (a b c d e f : ℚ) :
    (⟨a, b, c⟩ - ⟨d, e, f⟩ : Vec3) = ⟨a - d, b - e, c - f⟩ := rfl

@[simp] lemma Vec3.neg_mk (a b c : ℚ) :
    (-(⟨a, b, c⟩ : Vec3)) = ⟨-a, -b, -c⟩ := rfl

@[simp] lemma Vec3.smul_mk (t a b c : ℚ) :
    (t • (⟨a, b, c⟩ : Vec3)) = ⟨t * a, t * b, t * c⟩ := rfl

@[simp] lemma Vec3.hmul_mk (a b c d e f : ℚ) :
    ((⟨a, b, c⟩ : Vec3) * ⟨d, e, f⟩) = ⟨a * d, b * e, c * f⟩ := rfl

/-- Any root of the form `(-half_b - sqrtd)/a` with `sqrtd² = disc` puts the
ray point at squared distance `radius²` from the center. (Applying it to
`-sqrtd` covers the second root.) -/
lemma Sphere.lengthSquared_at_root1 {μ : Type} (s : Sphere μ) (r : Ray)
    (sqrtd : ℚ) (ha : s.aCoeff r ≠ 0) (hsq : sqrtd * sqrtd = s.disc r) :
    Vec3.lengthSquared (r.at (s.root1 r sqrtd) - s.center) =
      s.radius * s.radius := by
  have h1 : s.root1 r sqrtd * s.aCoeff r = -s.halfB r - sqrtd := by
    unfold Sphere.root1
    exact div_mul_cancel₀ _ ha
  have hsq2 : sqrtd * sqrtd =
      s.halfB r * s.halfB r -
        s.aCoeff r *
          (Vec3.lengthSquared (r.orig - s.center) - s.radius * s.radius) := by
    unfold Sphere.disc Sphere.cCoeff at hsq
    exact hsq
  rw [Vec3.lengthSquared_at_sub]
  have hdot : Vec3.dot (r.orig - s.center) r.dir = s.halfB r := rfl
  have hA : Vec3.lengthSquared r.dir = s.aCoeff r := rfl
  rw [hdot, hA]
  have key : s.aCoeff r *
      (Vec3.lengthSquared (r.orig - s.center) +
        2 * s.root1 r sqrtd * s.halfB r +
        s.root1 r sqrtd * s.root1 r sqrtd * s.aCoeff r -
        s.radius * s.radius) = 0 := by
    linear_combination hsq2 +
      (s.root1 r sqrtd * s.aCoeff r + s.halfB r - sqrtd) * h1
  rcases mul_eq_zero.mp key with h | h
  · exact absurd h ha
  · linarith

/-- The second root is the first one at `-sqrtd`. -/
lemma Sphere.root2_eq {μ : Type} (s : Sphere μ) (r : Ray) (sqrtd : ℚ) :
    s.root2 r sqrtd = s.root1 r (-sqrtd) := by
  unfold Sphere.root1 Sphere.root2
  ring_nf

lemma Sphere.record_t {μ : Type} (s : Sphere μ) (r : Ray) (root : ℚ)
    (rec : HitRecord μ) : (s.record r root rec).t = root := rfl

/-- The squared length of the stored normal of a sphere-hit record is `1`
whenever the root satisfies the sphere equation and the radius is nonzero. -/
lemma Sphere.lengthSquared_record_normal {μ : Type} (s : Sphere μ) (r : Ray)
    (root : ℚ) (rec : HitRecord μ)
    (hlen : Vec3.lengthSquared (r.at root - s.center) = s.radius * s.radius)
    (hrad : s.radius ≠ 0) :
    Vec3.lengthSquared (s.record r root rec).normal = 1 := by
  unfold Sphere.record
  rw [HitRecord.lengthSquared_setFaceNormal, Vec3.lengthSquared_div, hlen]
  field_simp

/-- C4. Sphere intersection: no hit when the discriminant is negative;
otherwise the smaller root is reported when it lies in the interval, else
the larger root when it does, else no hit; and on a hit the record is built
from the outward normal `(P - C) / radius`, division by the *signed*
radius, so that a negative radius yields the inverted normal. -/
theorem C4_sphere_hit_roots {μ : Type} (s : Sphere μ) (r : Ray) (tMin : ℚ)
    (tMax : WithTop ℚ) :
    (∀ (sqrtd : ℚ) (rec₀ : HitRecord μ), s.disc r < 0 →
      s.hit r tMin tMax sqrtd rec₀ = (false, rec₀)) ∧
    (∀ (sqrtd : ℚ) (rec₀ : HitRecord μ), sqrtd * sqrtd = s.disc r →
      0 ≤ sqrtd → 0 < s.aCoeff r →
      s.root1 r sqrtd ≤ s.root2 r sqrtd ∧
      ((tMin ≤ s.root1 r sqrtd ∧
          ((s.root1 r sqrtd : ℚ) : WithTop ℚ) ≤ tMax) →
        s.hit r tMin tMax sqrtd rec₀ =
          (true, s.record r (s.root1 r sqrtd) rec₀)) ∧
      (¬(tMin ≤ s.root1 r sqrtd ∧
          ((s.root1 r sqrtd : ℚ) : WithTop ℚ) ≤ tMax) →
        ((tMin ≤ s.root2 r sqrtd ∧
            ((s.root2 r sqrtd : ℚ) : WithTop ℚ) ≤ tMax) →
          s.hit r tMin tMax sqrtd rec₀ =
            (true, s.record r (s.root2 r sqrtd) rec₀)) ∧
        (¬(tMin ≤ s.root2 r sqrtd ∧
            ((s.root2 r sqrtd : ℚ) : WithTop ℚ) ≤ tMax) →
          s.hit r tMin tMax sqrtd rec₀ = (false, rec₀)))) ∧
    (∀ (root : ℚ) (rec₀ : HitRecord μ),
      (s.record r root rec₀).normal =
        (if Vec3.dot r.dir (Vec3.div (r.at root - s.center) s.radius) < 0
          then Vec3.div (r.at root - s.center) s.radius
          else -Vec3.div (r.at root - s.center) s.radius)) ∧
    (∀ root : ℚ,
      Vec3.div (r.at root - s.center) s.radius =
        -Vec3.div (r.at root - s.center) (-s.radius)) := by
  refine ⟨?_, ?_, ?_, ?_⟩
  · intro sqrtd rec₀ hneg
    simp only [Sphere.hit]
    rw [if_pos hneg]
  · intro sqrtd rec₀ hsq hge ha
    have hdisc : ¬s.disc r < 0 := by nlinarith
    have hroots : s.root1 r sqrtd ≤ s.root2 r sqrtd := by
      unfold Sphere.root1 Sphere.root2
      exact div_le_div_of_nonneg_right (by linarith) ha.le
    refine ⟨hroots, ?_, ?_⟩
    · intro hin
      have hcond : ¬(s.root1 r sqrtd < tMin ∨
          tMax < ((s.root1 r sqrtd : ℚ) : WithTop ℚ)) := by
        push_neg
        exact ⟨hin.1, hin.2⟩
      simp only [Sphere.hit]
      rw [if_neg hdisc, if_neg hcond]
    · intro hout
      have hcond : s.root1 r sqrtd < tMin ∨
          tMax < ((s.root1 r sqrtd : ℚ) : WithTop ℚ) := by
        by_contra hc
        push_neg at hc
        exact hout ⟨hc.1, hc.2⟩
      constructor
      · intro hin2
        have hcond2 : ¬(s.root2 r sqrtd < tMin ∨
            tMax < ((s.root2 r sqrtd : ℚ) : WithTop ℚ)) := by
          push_neg
          exact ⟨hin2.1, hin2.2⟩
        simp only [Sphere.hit]
        rw [if_neg hdisc, if_pos hcond, if_neg hcond2]
      · intro hout2
        have hcond2 : s.root2 r sqrtd < tMin ∨
            tMax < ((s.root2 r sqrtd : ℚ) : WithTop ℚ) := by
          by_contra hc
          push_neg at hc
          exact hout2 ⟨hc.1, hc.2⟩
        simp only [Sphere.hit]
        rw [if_neg hdisc, if_pos hcond, if_pos hcond2]
  · intro root rec₀
    rfl
  · intro root
    refine Vec3.ext_xyz ?_ ?_ ?_ <;>
      simp [Vec3.div, one_div, inv_neg]

/-- Witness for C4: a concrete miss (negative discriminant) and a concrete
hit at the smaller root of a unit sphere ahead of the ray. -/
theorem C4_sphere_hit_roots_witness :
    (Sphere.make ⟨0, 0, 0⟩ 1 ()).hit rayX 0 ⊤ 0 unitRec = (false, unitRec) ∧
    (Sphere.make ⟨0, 0, 2⟩ 1 ()).hit rayZ 0 ⊤ 1 unitRec =
      (true,
        (Sphere.make ⟨0, 0, 2⟩ 1 ()).record rayZ
          ((Sphere.make ⟨0, 0, 2⟩ 1 ()).root1 rayZ 1) unitRec) :=
  ⟨(C4_sphere_hit_roots _ rayX 0 ⊤).1 0 unitRec (by
      norm_num [Sphere.make, Sphere.disc, Sphere.halfB, Sphere.aCoeff,
        Sphere.cCoeff, Vec3.dot, Vec3.lengthSquared, rayX]),
   ((C4_sphere_hit_roots _ rayZ 0 ⊤).2.1 1 unitRec (by
      norm_num [Sphere.make, Sphere.disc, Sphere.halfB, Sphere.aCoeff,
        Sphere.cCoeff, Vec3.dot, Vec3.lengthSquared, rayZ]) (by norm_num)
      (by
        norm_num [Sphere.make, Sphere.aCoeff, Vec3.lengthSquared, rayZ])).2.1
    (by
      constructor
      · norm_num [Sphere.make, Sphere.root1, Sphere.halfB, Sphere.aCoeff,
          Vec3.dot, Vec3.lengthSquared, rayZ]
      · exact le_top)⟩

/-- The invariant C3 claims of every successful intersection: `t` lies in
the queried interval, the stored normal is unit length (exactly, in the
rational model — hence within the claimed `1e-9`), and the normal opposes
the incoming ray direction. -/
def hitInvariant {μ : Type} (r : Ray) (tMin : ℚ) (tMax : WithTop ℚ)
    (out : HitRecord μ) : Prop :=
  tMin ≤ out.t ∧ ((out.t : ℚ) : WithTop ℚ) ≤ tMax ∧
    Vec3.lengthSquared out.normal = 1 ∧ Vec3.dot r.dir out.normal ≤ 0

lemma Sphere.dot_record_nonpos {μ : Type} (s : Sphere μ) (r : Ray)
    (root : ℚ) (rec : HitRecord μ) :
    Vec3.dot r.dir (s.record r root rec).normal ≤ 0 := by
  simp only [Sphere.record]
  exact HitRecord.dot_setFaceNormal_nonpos _ _ _

lemma sphere_hit_invariant {μ : Type} (s : Sphere μ) (r : Ray) (tMin : ℚ)
    (tMax : WithTop ℚ) (sqrtd : ℚ) (rec₀ out : HitRecord μ)
    (ha : s.aCoeff r ≠ 0) (hrad : s.radius ≠ 0)
    (hsq : sqrtd * sqrtd = s.disc r)
    (h : s.hit r tMin tMax sqrtd rec₀ = (true, out)) :
    hitInvariant r tMin tMax out := by
  simp only [Sphere.hit] at h
  split at h
  · simp at h
  · split at h
    · next hc1 =>
      split at h
      · simp at h
      · next hc2 =>
        push_neg at hc2
        rw [Prod.mk.injEq] at h
        obtain ⟨-, rfl⟩ := h
        have hlen := s.lengthSquared_at_root1 r (-sqrtd) ha
          (by rw [← hsq]; ring)
        rw [← Sphere.root2_eq] at hlen
        exact ⟨hc2.1, hc2.2,
          s.lengthSquared_record_normal r _ rec₀ hlen hrad,
          s.dot_record_nonpos r _ rec₀⟩
    · next hc1 =>
      push_neg at hc1
      rw [Prod.mk.injEq] at h
      obtain ⟨-, rfl⟩ := h
      have hlen := s.lengthSquared_at_root1 r sqrtd ha hsq
      exact ⟨hc1.1, hc1.2,
        s.lengthSquared_record_normal r _ rec₀ hlen hrad,
        s.dot_record_nonpos r _ rec₀⟩

lemma plane_hit_invariant {μ : Type} (pl : Plane μ) (r : Ray) (tMin : ℚ)
    (tMax : WithTop ℚ) (rec₀ out : HitRecord μ)
    (hn : Vec3.lengthSquared pl.normal = 1)
    (h : pl.hit r tMin tMax rec₀ = (true, out)) :
    hitInvariant r tMin tMax out := by
  simp only [Plane.hit] at h
  split at h
  · simp at h
  · split at h
    · simp at h
    · next hc =>
      push_neg at hc
      rw [Prod.mk.injEq] at h
      obtain ⟨-, rfl⟩ := h
      refine ⟨hc.1, hc.2, ?_, HitRecord.dot_setFaceNormal_nonpos _ _ _⟩
      rw [HitRecord.lengthSquared_setFaceNormal]
      exact hn

lemma parallelogram_hit_invariant {μ : Type} (pg : Parallelogram μ)
    (r : Ray) (tMin : ℚ) (tMax : WithTop ℚ) (rec₀ out : HitRecord μ)
    (hn : Vec3.lengthSquared pg.normal = 1)
    (h : pg.hit r tMin tMax rec₀ = (true, out)) :
    hitInvariant r tMin tMax out := by
  simp only [Parallelogram.hit] at h
  split at h
  · simp at h
  · split at h
    · simp at h
    · next hc =>
      push_neg at hc
      split at h
      · simp at h
      · rw [Prod.mk.injEq] at h
        obtain ⟨-, rfl⟩ := h
        refine ⟨hc.1, hc.2, ?_, HitRecord.dot_setFaceNormal_nonpos _ _ _⟩
        rw [HitRecord.lengthSquared_setFaceNormal]
        exact hn

/-- The scene loop preserves the hit invariant: members are queried over
`[t_min, closest_so_far]` with `closest_so_far ≤ t_max`, so a member's
invariant at the shrunken interval yields the invariant at the original
one. -/
lemma sceneHitLoop_invariant {μ : Type} (r : Ray) (tMin : ℚ)
    (tMax : WithTop ℚ) :
    ∀ (objs : List (HitFun μ)) (closest : WithTop ℚ) (temp rec out : HitRecord μ)
      (flag : Bool),
      (∀ f ∈ objs, ∀ (tMax' : WithTop ℚ) (rec' out' : HitRecord μ),
        f r tMin tMax' rec' = (true, out') → hitInvariant r tMin tMax' out') →
      closest ≤ tMax →
      (flag = true → hitInvariant r tMin tMax rec) →
      sceneHitLoop r tMin objs closest temp flag rec = (true, out) →
      hitInvariant r tMin tMax out := by
  intro objs
  induction objs with
  | nil =>
    intro closest temp rec out flag hmem hle hflag h
    simp only [sceneHitLoop] at h
    rw [Prod.mk.injEq] at h
    obtain ⟨rfl, rfl⟩ := h
    exact hflag rfl
  | cons o rest ih =>
    intro closest temp rec out flag hmem hle hflag h
    simp only [sceneHitLoop] at h
    split at h
    · next hres =>
      have hobj := hmem o (List.mem_cons_self o rest) closest temp
        (o r tMin closest temp).2
        (by rw [← hres])
      have hinv : hitInvariant r tMin tMax (o r tMin closest temp).2 :=
        ⟨hobj.1, le_trans hobj.2.1 hle, hobj.2.2⟩
      exact ih _ _ _ _ _ (fun f hf => hmem f (List.mem_cons_of_mem o hf))
        (le_trans hobj.2.1 hle) (fun _ => hinv) h
    · exact ih _ _ _ _ _ (fun f hf => hmem f (List.mem_cons_of_mem o hf))
        hle hflag h

lemma Vec3.lengthSquared_unitVector (v : Vec3) (len : ℚ)
    (hlen : len * len = Vec3.lengthSquared v) (h0 : len ≠ 0) :
    Vec3.lengthSquared (Vec3.unitVector v len) = 1 := by
  unfold Vec3.unitVector
  rw [Vec3.lengthSquared_div, ← hlen]
  field_simp

/-- C3. Every successful intersection — of a sphere, an infinite plane, a
parallelogram, or a scene of well-behaved members (which covers the
parallelepiped, a scene of six parallelograms) — fills a record whose `t`
lies in `[t_min, t_max]`, whose stored normal is unit length (exactly, in
exact arithmetic, hence within `1e-9`), and whose normal opposes the ray.
The sphere clauses assume a non-degenerate ray (`a ≠ 0`), a nonzero radius
and a correct `sqrtd`; the plane and parallelogram clauses assume the unit
normal their constructors establish (last two conjuncts, for a nonzero
length of the normalised vector). -/
theorem C3_hit_record_invariants {μ : Type} :
    (∀ (s : Sphere μ) (r : Ray) (tMin : ℚ) (tMax : WithTop ℚ) (sqrtd : ℚ)
      (rec₀ out : HitRecord μ), s.aCoeff r ≠ 0 → s.radius ≠ 0 →
      sqrtd * sqrtd = s.disc r →
      s.hit r tMin tMax sqrtd rec₀ = (true, out) →
      hitInvariant r tMin tMax out) ∧
    (∀ (pl : Plane μ) (r : Ray) (tMin : ℚ) (tMax : WithTop ℚ)
      (rec₀ out : HitRecord μ), Vec3.lengthSquared pl.normal = 1 →
      pl.hit r tMin tMax rec₀ = (true, out) →
      hitInvariant r tMin tMax out) ∧
    (∀ (pg : Parallelogram μ) (r : Ray) (tMin : ℚ) (tMax : WithTop ℚ)
      (rec₀ out : HitRecord μ), Vec3.lengthSquared pg.normal = 1 →
      pg.hit r tMin tMax rec₀ = (true, out) →
      hitInvariant r tMin tMax out) ∧
    (∀ (objs : List (HitFun μ)) (r : Ray) (tMin : ℚ) (tMax : WithTop ℚ)
      (temp₀ rec₀ out : HitRecord μ),
      (∀ f ∈ objs, ∀ (tMax' : WithTop ℚ) (rec' out' : HitRecord μ),
        f r tMin tMax' rec' = (true, out') →
        hitInvariant r tMin tMax' out') →
      sceneHit objs r tMin tMax temp₀ rec₀ = (true, out) →
      hitInvariant r tMin tMax out) ∧
    (∀ (p n : Vec3) (len : ℚ) (m : μ),
      len * len = Vec3.lengthSquared n → len ≠ 0 →
      Vec3.lengthSquared (Plane.make p n len m).normal = 1) ∧
    (∀ (Q u v : Vec3) (len : ℚ) (m : μ),
      len * len = Vec3.lengthSquared (Vec3.cross u v) → len ≠ 0 →
      Vec3.lengthSquared (Parallelogram.make Q u v len m).normal = 1) := by
  refine ⟨?_, ?_, ?_, ?_, ?_, ?_⟩
  · intro s r tMin tMax sqrtd rec₀ out ha hrad hsq h
    exact sphere_hit_invariant s r tMin tMax sqrtd rec₀ out ha hrad hsq h
  · intro pl r tMin tMax rec₀ out hn h
    exact plane_hit_invariant pl r tMin tMax rec₀ out hn h
  · intro pg r tMin tMax rec₀ out hn h
    exact parallelogram_hit_invariant pg r tMin tMax rec₀ out hn h
  · intro objs r tMin tMax temp₀ rec₀ out hmem h
    exact sceneHitLoop_invariant r tMin tMax objs tMax temp₀ rec₀ out false
      hmem le_rfl (by simp) h
  · intro p n len m hlen h0
    exact Vec3.lengthSquared_unitVector n len hlen h0
  · intro Q u v len m hlen h0
    exact Vec3.lengthSquared_unitVector _ len hlen h0

/-- Witness for C3: concrete successful hits of a sphere, a plane, a
parallelogram and a one-member scene all satisfy the invariant, and the
plane/parallelogram constructors produce unit normals on concrete data. -/
theorem C3_hit_record_invariants_witness :
    hitInvariant rayZ 0 ⊤ (⟨⟨0, 0, 1⟩, ⟨0, 0, -1⟩, 1, true, ()⟩ :
      HitRecord Unit) ∧
    hitInvariant rayZ 0 ⊤ (⟨⟨0, 0, 5⟩, ⟨0, 0, -1⟩, 5, false, ()⟩ :
      HitRecord Unit) ∧
    hitInvariant rayZ 0 ⊤ (⟨⟨0, 0, 3⟩, ⟨0, 0, -1⟩, 3, false, ()⟩ :
      HitRecord Unit) ∧
    hitInvariant rayZ 0 ⊤ (⟨⟨0, 0, 5⟩, ⟨0, 0, -1⟩, 5, false, ()⟩ :
      HitRecord Unit) ∧
    Vec3.lengthSquared (Plane.make ⟨0, 0, 5⟩ ⟨0, 0, 1⟩ 1 ()).normal = 1 ∧
    Vec3.lengthSquared
      (Parallelogram.make ⟨-1, -1, 3⟩ ⟨2, 0, 0⟩ ⟨0, 2, 0⟩ 4 ()).normal = 1 := by
  refine ⟨?_, ?_, ?_, ?_, ?_, ?_⟩
  · refine C3_hit_record_invariants.1 (Sphere.make ⟨0, 0, 2⟩ 1 ()) rayZ 0 ⊤ 1
      unitRec _ ?_ ?_ ?_ ?_
    · norm_num [Sphere.make, Sphere.aCoeff, Vec3.lengthSquared, rayZ]
    · norm_num [Sphere.make]
    · norm_num [Sphere.make, Sphere.disc, Sphere.halfB, Sphere.aCoeff,
        Sphere.cCoeff, Vec3.dot, Vec3.lengthSquared, rayZ]
    · norm_num [Sphere.hit, Sphere.make, Sphere.disc, Sphere.halfB,
        Sphere.aCoeff, Sphere.cCoeff, Sphere.root1, Sphere.root2,
        Sphere.record, HitRecord.setFaceNormal, Ray.at, Vec3.dot,
        Vec3.lengthSquared, Vec3.div, rayZ, unitRec]
  · refine C3_hit_record_invariants.2.1 (Plane.make ⟨0, 0, 5⟩ ⟨0, 0, 1⟩ 1 ())
      rayZ 0 ⊤ unitRec _ ?_ ?_
    · norm_num [Plane.make, Vec3.unitVector, Vec3.div, Vec3.lengthSquared]
    · norm_num [Plane.hit, Plane.make, Vec3.unitVector, Vec3.div,
        HitRecord.setFaceNormal, Ray.at, Vec3.dot, rayZ, unitRec]
  · refine C3_hit_record_invariants.2.2.1
      (Parallelogram.make ⟨-1, -1, 3⟩ ⟨2, 0, 0⟩ ⟨0, 2, 0⟩ 4 ()) rayZ 0 ⊤
      unitRec _ ?_ ?_
    · norm_num [Parallelogram.make, Vec3.unitVector, Vec3.div, Vec3.cross,
        Vec3.lengthSquared]
    · norm_num [Parallelogram.hit, Parallelogram.make, Vec3.unitVector,
        HitRecord.setFaceNormal, Ray.at, Vec3.dot, Vec3.div, Vec3.cross,
        rayZ, unitRec]
  · refine C3_hit_record_invariants.2.2.2.1
      [Plane.toHitFun (Plane.make ⟨0, 0, 5⟩ ⟨0, 0, 1⟩ 1 ())] rayZ 0 ⊤
      unitRec unitRec _ ?_ ?_
    · intro f hf tMax' rec' out' h
      rw [List.mem_singleton] at hf
      subst hf
      refine C3_hit_record_invariants.2.1 _ rayZ 0 tMax' rec' out' ?_ h
      norm_num [Plane.make, Vec3.unitVector, Vec3.div, Vec3.lengthSquared]
    · norm_num [sceneHit, sceneHitLoop, Plane.toHitFun, Plane.hit, Plane.make,
        Vec3.unitVector, HitRecord.setFaceNormal, Ray.at, Vec3.dot, Vec3.div,
        rayZ, unitRec]
  · refine C3_hit_record_invariants.2.2.2.2.1 ⟨0, 0, 5⟩ ⟨0, 0, 1⟩ 1 () ?_
      (by norm_num)
    norm_num [Vec3.lengthSquared]
  · refine C3_hit_record_invariants.2.2.2.2.2 ⟨-1, -1, 3⟩ ⟨2, 0, 0⟩
      ⟨0, 2, 0⟩ 4 () ?_ (by norm_num)
    norm_num [Vec3.cross, Vec3.lengthSquared]

lemma candidateHit_pos {μ : Type} (hd : HitRecord μ) (r : Ray) (tMin : ℚ)
    (c : WithTop ℚ) (temp : HitRecord μ)
    (hv : tMin ≤ hd.t ∧ ((hd.t : ℚ) : WithTop ℚ) ≤ c) :
    candidateHit (some hd) r tMin c temp = (true, hd) := by
  simp [candidateHit, hv]

lemma candidateHit_neg {μ : Type} (hd : HitRecord μ) (r : Ray) (tMin : ℚ)
    (c : WithTop ℚ) (temp : HitRecord μ)
    (hv : ¬(tMin ≤ hd.t ∧ ((hd.t : ℚ) : WithTop ℚ) ≤ c)) :
    candidateHit (some hd) r tMin c temp = (false, temp) := by
  simp only [candidateHit]
  rw [if_neg hv]

/-- The key induction for C2: running the scene loop over abstract
candidate members with current bound `c` either reports the incoming
accumulator (when no candidate is valid within `c`), or returns the valid
candidate of smallest `t`, the later one on ties: everything before the
returned member has `t` no smaller, everything after it strictly larger. -/
lemma sceneHitLoop_candidates {μ : Type} (r : Ray) (tMin : ℚ) :
    ∀ (cands : List (Option (HitRecord μ))) (c : WithTop ℚ)
      (temp rec₀ : HitRecord μ) (flag : Bool),
      (sceneHitLoop r tMin (cands.map candidateHit) c temp flag rec₀ =
          (flag, rec₀) ∧
        ∀ h, some h ∈ cands → ¬(tMin ≤ h.t ∧ ((h.t : ℚ) : WithTop ℚ) ≤ c)) ∨
      (∃ pre h suf, cands = pre ++ some h :: suf ∧
        (tMin ≤ h.t ∧ ((h.t : ℚ) : WithTop ℚ) ≤ c) ∧
        sceneHitLoop r tMin (cands.map candidateHit) c temp flag rec₀ =
          (true, h) ∧
        (∀ h', some h' ∈ pre → tMin ≤ h'.t → ((h'.t : ℚ) : WithTop ℚ) ≤ c →
          h.t ≤ h'.t) ∧
        (∀ h', some h' ∈ suf → tMin ≤ h'.t → ((h'.t : ℚ) : WithTop ℚ) ≤ c →
          h.t < h'.t)) := by
  intro cands
  induction cands with
  | nil =>
    intro c temp rec₀ flag
    left
    exact ⟨rfl, by simp⟩
  | cons cd rest ih =>
    intro c temp rec₀ flag
    match cd with
    | none =>
      have hstep : sceneHitLoop r tMin ((none :: rest).map candidateHit) c
          temp flag rec₀ =
          sceneHitLoop r tMin (rest.map candidateHit) c temp flag rec₀ := by
        simp [sceneHitLoop, candidateHit]
      rcases ih c temp rec₀ flag with ⟨heq, hnone⟩ |
        ⟨pre, h, suf, hsplit, hval, heq, hpre, hsuf⟩
      · left
        refine ⟨hstep.trans heq, ?_⟩
        intro h hmem
        rcases List.mem_cons.mp hmem with hh | hh
        · exact absurd hh (by simp)
        · exact hnone h hh
      · right
        refine ⟨none :: pre, h, suf, by rw [hsplit]; rfl, hval,
          hstep.trans heq, ?_, hsuf⟩
        intro h' hmem
        rcases List.mem_cons.mp hmem with hh | hh
        · exact absurd hh (by simp)
        · exact hpre h' hh
    | some hd =>
      by_cases hv : tMin ≤ hd.t ∧ ((hd.t : ℚ) : WithTop ℚ) ≤ c
      · have hstep : sceneHitLoop r tMin ((some hd :: rest).map candidateHit)
            c temp flag rec₀ =
            sceneHitLoop r tMin (rest.map candidateHit)
              ((hd.t : ℚ) : WithTop ℚ) hd true hd := by
          simp only [List.map_cons, sceneHitLoop,
            candidateHit_pos hd r tMin c temp hv]
          simp
        rcases ih ((hd.t : ℚ) : WithTop ℚ) hd hd true with ⟨heq, hnone⟩ |
          ⟨pre, h, suf, hsplit, hval, heq, hpre, hsuf⟩
        · right
          refine ⟨[], hd, rest, rfl, hv, hstep.trans heq, by simp, ?_⟩
          intro h' hmem h1 h2
          by_contra hlt
          push_neg at hlt
          exact hnone h' hmem ⟨h1, WithTop.coe_le_coe.mpr hlt⟩
        · right
          refine ⟨some hd :: pre, h, suf, by rw [hsplit]; rfl,
            ⟨hval.1, le_trans hval.2 hv.2⟩, hstep.trans heq, ?_, ?_⟩
          · intro h' hmem h1 h2
            rcases List.mem_cons.mp hmem with hh | hh
            · obtain rfl : h' = hd := by injection hh
              exact WithTop.coe_le_coe.mp hval.2
            · by_cases hcase : ((h'.t : ℚ) : WithTop ℚ) ≤
                  ((hd.t : ℚ) : WithTop ℚ)
              · exact hpre h' hh h1 hcase
              · push_neg at hcase
                have h3 : hd.t < h'.t := WithTop.coe_lt_coe.mp hcase
                have h4 : h.t ≤ hd.t := WithTop.coe_le_coe.mp hval.2
                linarith
          · intro h' hmem h1 h2
            by_cases hcase : ((h'.t : ℚ) : WithTop ℚ) ≤
                ((hd.t : ℚ) : WithTop ℚ)
            · exact hsuf h' hmem h1 hcase
            · push_neg at hcase
              have h3 : hd.t < h'.t := WithTop.coe_lt_coe.mp hcase
              have h4 : h.t ≤ hd.t := WithTop.coe_le_coe.mp hval.2
              linarith
      · have hstep : sceneHitLoop r tMin ((some hd :: rest).map candidateHit)
            c temp flag rec₀ =
            sceneHitLoop r tMin (rest.map candidateHit) c temp flag rec₀ := by
          simp only [List.map_cons, sceneHitLoop,
            candidateHit_neg hd r tMin c temp hv]
          simp
        rcases ih c temp rec₀ flag with ⟨heq, hnone⟩ |
          ⟨pre, h, suf, hsplit, hval, heq, hpre, hsuf⟩
        · left
          refine ⟨hstep.trans heq, ?_⟩
          intro h hmem
          rcases List.mem_cons.mp hmem with hh | hh
          · obtain rfl : h = hd := by injection hh
            exact hv
          · exact hnone h hh
        · right
          refine ⟨some hd :: pre, h, suf, by rw [hsplit]; rfl, hval,
            hstep.trans heq, ?_, hsuf⟩
          intro h' hmem h1 h2
          rcases List.mem_cons.mp hmem with hh | hh
          · obtain rfl : h' = hd := by injection hh
            exact absurd ⟨h1, h2⟩ hv
          · exact hpre h' hh h1 h2

lemma candidateHit_none {μ : Type} (r : Ray) (tMin : ℚ) (c : WithTop ℚ)
    (temp : HitRecord μ) : candidateHit none r tMin c temp = (false, temp) :=
  rfl

/-- For a fixed ray and `t_min`, the candidate a plane offers the scene
loop: `none` for parallel rays or `t < t_min`, otherwise the (bound
independent) record at its unique plane-crossing parameter. -/
def Plane.candidate {μ : Type} (pl : Plane μ) (r : Ray) (tMin : ℚ)
    (rec₀ : HitRecord μ) : Option (HitRecord μ) :=
  let denom := Vec3.dot r.dir pl.normal
  if |denom| < 1 / 1000000 then none
  else
    let t := Vec3.dot (pl.point - r.orig) pl.normal / denom
    if t < tMin then none
    else
      some (({ rec₀ with t := t, p := r.at t, mat := pl.mat } :
        HitRecord μ).setFaceNormal r pl.normal)

/-- A plane responds to the scene loop's shrinking upper bound exactly as
the abstract candidate member built from its candidate record. -/
lemma plane_toHitFun_isCandidate {μ : Type} (pl : Plane μ) (r : Ray)
    (tMin : ℚ) (rec₀ : HitRecord μ) (tMax : WithTop ℚ) (rec : HitRecord μ) :
    pl.toHitFun r tMin tMax rec =
      candidateHit (pl.candidate r tMin rec₀) r tMin tMax rec := by
  simp only [Plane.toHitFun, Plane.hit, Plane.candidate]
  by_cases h1 : |Vec3.dot r.dir pl.normal| < 1 / 1000000
  · rw [if_pos h1, if_pos h1]
    rfl
  · rw [if_neg h1, if_neg h1]
    by_cases h2 :
        Vec3.dot (pl.point - r.orig) pl.normal / Vec3.dot r.dir pl.normal <
          tMin
    · rw [if_pos (Or.inl h2), if_pos h2]
      rfl
    · rw [if_neg h2]
      by_cases h3 : tMax <
          ((Vec3.dot (pl.point - r.orig) pl.normal /
            Vec3.dot r.dir pl.normal : ℚ) : WithTop ℚ)
      · rw [if_pos (Or.inr h3), candidateHit_neg _ r tMin tMax rec
          (by rintro ⟨-, hc⟩; exact absurd h3 (not_lt.mpr hc))]
      · rw [if_neg (by rintro (hc | hc); exacts [h2 hc, h3 hc]),
          candidateHit_pos _ r tMin tMax rec ⟨not_lt.mp h2, not_lt.mp h3⟩]
        rfl

/-- For a fixed ray and `t_min`, the candidate a parallelogram offers the
scene loop: `none` for parallel rays, `t < t_min` or a crossing outside the
`α, β ∈ [0,1]` patch, otherwise the record at its plane-crossing
parameter. -/
def Parallelogram.candidate {μ : Type} (pg : Parallelogram μ) (r : Ray)
    (tMin : ℚ) (rec₀ : HitRecord μ) : Option (HitRecord μ) :=
  let denom := Vec3.dot pg.normal r.dir
  if |denom| < 1 / 100000000 then none
  else
    let t := (pg.D - Vec3.dot pg.normal r.orig) / denom
    if t < tMin then none
    else
      let intersection := r.at t
      let planarHitpt := intersection - pg.Q
      let alpha := Vec3.dot pg.w (Vec3.cross planarHitpt pg.v)
      let beta := Vec3.dot pg.w (Vec3.cross pg.u planarHitpt)
      if alpha < 0 ∨ alpha > 1 ∨ beta < 0 ∨ beta > 1 then none
      else
        some (({ rec₀ with t := t, p := intersection, mat := pg.mat } :
          HitRecord μ).setFaceNormal r pg.normal)

/-- A parallelogram responds to the scene loop's shrinking upper bound
exactly as the abstract candidate member built from its candidate record. -/
lemma parallelogram_toHitFun_isCandidate {μ : Type} (pg : Parallelogram μ)
    (r : Ray) (tMin : ℚ) (rec₀ : HitRecord μ) (tMax : WithTop ℚ)
    (rec : HitRecord μ) :
    pg.toHitFun r tMin tMax rec =
      candidateHit (pg.candidate r tMin rec₀) r tMin tMax rec := by
  simp only [Parallelogram.toHitFun, Parallelogram.hit,
    Parallelogram.candidate]
  by_cases h1 : |Vec3.dot pg.normal r.dir| < 1 / 100000000
  · rw [if_pos h1, if_pos h1]
    rfl
  · rw [if_neg h1, if_neg h1]
    by_cases h2 :
        (pg.D - Vec3.dot pg.normal r.orig) / Vec3.dot pg.normal r.dir < tMin
    · rw [if_pos (Or.inl h2), if_pos h2]
      rfl
    · rw [if_neg h2]
      by_cases h4 : Vec3.dot pg.w
            (Vec3.cross (r.at ((pg.D - Vec3.dot pg.normal r.orig) /
              Vec3.dot pg.normal r.dir) - pg.Q) pg.v) < 0 ∨
          Vec3.dot pg.w
            (Vec3.cross (r.at ((pg.D - Vec3.dot pg.normal r.orig) /
              Vec3.dot pg.normal r.dir) - pg.Q) pg.v) > 1 ∨
          Vec3.dot pg.w
            (Vec3.cross pg.u (r.at ((pg.D - Vec3.dot pg.normal r.orig) /
              Vec3.dot pg.normal r.dir) - pg.Q)) < 0 ∨
          Vec3.dot pg.w
            (Vec3.cross pg.u (r.at ((pg.D - Vec3.dot pg.normal r.orig) /
              Vec3.dot pg.normal r.dir) - pg.Q)) > 1
      · by_cases h3 : tMax <
            (((pg.D - Vec3.dot pg.normal r.orig) /
              Vec3.dot pg.normal r.dir : ℚ) : WithTop ℚ)
        · conv_lhs => rw [if_pos (Or.inr h3)]
          conv_rhs => rw [if_pos h4]
          rfl
        · conv_lhs =>
            rw [if_neg (by rintro (hc | hc); exacts [h2 hc, h3 hc]),
              if_pos h4]
          conv_rhs => rw [if_pos h4]
          rfl
      · by_cases h3 : tMax <
            (((pg.D - Vec3.dot pg.normal r.orig) /
              Vec3.dot pg.normal r.dir : ℚ) : WithTop ℚ)
        · conv_lhs => rw [if_pos (Or.inr h3)]
          conv_rhs => rw [if_neg h4]
          rw [candidateHit_neg _ r tMin tMax rec
            (by rintro ⟨-, hc⟩; exact absurd h3 (not_lt.mpr hc))]
        · conv_lhs =>
            rw [if_neg (by rintro (hc | hc); exacts [h2 hc, h3 hc]),
              if_neg h4]
          conv_rhs => rw [if_neg h4]
          rw [candidateHit_pos _ r tMin tMax rec
            ⟨not_lt.mp h2, not_lt.mp h3⟩]
          rfl

/-- For a fixed ray, `t_min` and `sqrtd`, the candidate a sphere offers the
scene loop: nothing when the discriminant is negative or both roots fall
below `t_min`, otherwise the record at the first acceptable root. -/
def Sphere.candidate {μ : Type} (s : Sphere μ) (r : Ray) (tMin sqrtd : ℚ)
    (rec₀ : HitRecord μ) : Option (HitRecord μ) :=
  if s.disc r < 0 then none
  else if tMin ≤ s.root1 r sqrtd then
    some (s.record r (s.root1 r sqrtd) rec₀)
  else if tMin ≤ s.root2 r sqrtd then
    some (s.record r (s.root2 r sqrtd) rec₀)
  else none

/-- A sphere (queried with the correct non-negative `sqrtd` and a ray of
positive direction norm) responds to the scene loop's shrinking upper bound
exactly as the abstract candidate member built from its candidate record. -/
lemma Sphere.hit_isCandidate {μ : Type} (s : Sphere μ) (r : Ray)
    (tMin sqrtd : ℚ) (rec₀ : HitRecord μ) (ha : 0 < s.aCoeff r)
    (hs : 0 ≤ sqrtd) (tMax : WithTop ℚ) (rec : HitRecord μ) :
    s.hit r tMin tMax sqrtd rec =
      candidateHit (s.candidate r tMin sqrtd rec₀) r tMin tMax rec := by
  have hroots : s.root1 r sqrtd ≤ s.root2 r sqrtd := by
    unfold Sphere.root1 Sphere.root2
    exact div_le_div_of_nonneg_right (by linarith) ha.le
  simp only [Sphere.hit, Sphere.candidate]
  by_cases hd : s.disc r < 0
  · rw [if_pos hd, if_pos hd]
    rfl
  · rw [if_neg hd, if_neg hd]
    by_cases hr1 : tMin ≤ s.root1 r sqrtd
    · rw [if_pos hr1]
      by_cases h3 : tMax < ((s.root1 r sqrtd : ℚ) : WithTop ℚ)
      · have h3' : tMax < ((s.root2 r sqrtd : ℚ) : WithTop ℚ) :=
          lt_of_lt_of_le h3 (WithTop.coe_le_coe.mpr hroots)
        rw [if_pos (Or.inr h3), if_pos (Or.inr h3'),
          candidateHit_neg _ r tMin tMax rec
            (by rintro ⟨-, hc⟩; exact absurd h3 (not_lt.mpr hc))]
      · rw [if_neg (by
            rintro (hc | hc)
            exacts [absurd hr1 (not_le.mpr hc), h3 hc]),
          candidateHit_pos _ r tMin tMax rec ⟨hr1, not_lt.mp h3⟩]
        rfl
    · rw [if_neg hr1]
      by_cases hr2 : tMin ≤ s.root2 r sqrtd
      · rw [if_pos hr2, if_pos (Or.inl (not_le.mp hr1))]
        by_cases h3 : tMax < ((s.root2 r sqrtd : ℚ) : WithTop ℚ)
        · rw [if_pos (Or.inr h3),
            candidateHit_neg _ r tMin tMax rec
              (by rintro ⟨-, hc⟩; exact absurd h3 (not_lt.mpr hc))]
        · rw [if_neg (by
              rintro (hc | hc)
              exacts [absurd hr2 (not_le.mpr hc), h3 hc]),
            candidateHit_pos _ r tMin tMax rec ⟨hr2, not_lt.mp h3⟩]
          rfl
      · rw [if_neg hr2, if_pos (Or.inl (not_le.mp hr1)),
          if_pos (Or.inl (not_le.mp hr2))]
        rfl

/-- C2. `Scene::hit` over members that answer interval queries by a fixed
candidate record (as the concrete primitives do for a fixed ray and
`t_min`: `Sphere.hit_isCandidate`, `plane_toHitFun_isCandidate`,
`parallelogram_toHitFun_isCandidate`): either no member's candidate lies in
`[t_min, t_max]` and the scene reports a miss leaving the record untouched,
or the scene returns a hitting member's record whose `t` is smallest among
all members that would individually hit in the interval — every earlier
hitting member has `t` no smaller, and at exactly equal `t` the retained
hit is the later one in the list (every later hitting member has strictly
larger `t`). -/
theorem C2_scene_hit_is_closest {μ : Type}
    (cands : List (Option (HitRecord μ))) (r : Ray) (tMin : ℚ)
    (tMax : WithTop ℚ) (temp₀ rec₀ : HitRecord μ) :
    (sceneHit (cands.map candidateHit) r tMin tMax temp₀ rec₀ =
        (false, rec₀) ∧
      ∀ h, some h ∈ cands → ¬(tMin ≤ h.t ∧ ((h.t : ℚ) : WithTop ℚ) ≤ tMax)) ∨
    (∃ pre h suf, cands = pre ++ some h :: suf ∧
      (tMin ≤ h.t ∧ ((h.t : ℚ) : WithTop ℚ) ≤ tMax) ∧
      sceneHit (cands.map candidateHit) r tMin tMax temp₀ rec₀ = (true, h) ∧
      (∀ h', some h' ∈ pre → tMin ≤ h'.t → ((h'.t : ℚ) : WithTop ℚ) ≤ tMax →
        h.t ≤ h'.t) ∧
      (∀ h', some h' ∈ suf → tMin ≤ h'.t → ((h'.t : ℚ) : WithTop ℚ) ≤ tMax →
        h.t < h'.t)) :=
  sceneHitLoop_candidates r tMin cands tMax temp₀ rec₀ false

/-- Membership in the round-robin block list: exactly the indices from the
start value upward, below the total, in steps of the thread count. -/
lemma mem_rrBlocks (total T : ℕ) (hT : 0 < T) :
    ∀ b x : ℕ, x ∈ rrBlocks total T b ↔ b ≤ x ∧ x < total ∧ T ∣ x - b := by
  have H : ∀ n b x : ℕ, total - b ≤ n →
      (x ∈ rrBlocks total T b ↔ b ≤ x ∧ x < total ∧ T ∣ x - b) := by
    intro n
    induction n with
    | zero =>
      intro b x hle
      rw [rrBlocks, dif_neg (by omega)]
      simp only [List.not_mem_nil, false_iff]
      rintro ⟨h1, h2, -⟩
      omega
    | succ n ih =>
      intro b x hle
      rw [rrBlocks]
      by_cases hcond : b < total ∧ 0 < T
      · rw [dif_pos hcond, List.mem_cons, ih (b + T) x (by omega)]
        constructor
        · rintro (rfl | ⟨h1, h2, h3⟩)
          · exact ⟨le_rfl, hcond.1, by simp⟩
          · refine ⟨by omega, h2, ?_⟩
            have h4 : x - b = (x - (b + T)) + T := by omega
            rw [h4]
            exact dvd_add h3 dvd_rfl
        · rintro ⟨h1, h2, h3⟩
          by_cases hx : x = b
          · exact Or.inl hx
          · right
            have h5 : T ≤ x - b := Nat.le_of_dvd (by omega) h3
            refine ⟨by omega, h2, ?_⟩
            have h4 : x - (b + T) = (x - b) - T := by omega
            rw [h4]
            exact Nat.dvd_sub' h3 dvd_rfl
      · rw [dif_neg hcond]
        simp only [List.not_mem_nil, false_iff]
        rintro ⟨h1, h2, -⟩
        exact hcond ⟨by omega, hT⟩
  intro b x
  exact H (total - b) b x le_rfl

/-- A worker id below the thread count owns exactly the blocks congruent to
it modulo the thread count. -/
lemma mem_rrBlocks_start (total T t b : ℕ) (hT : 0 < T) (ht : t < T) :
    b ∈ rrBlocks total T t ↔ b < total ∧ b % T = t := by
  rw [mem_rrBlocks total T hT]
  constructor
  · rintro ⟨h1, h2, k, hk⟩
    refine ⟨h2, ?_⟩
    have hb : b = t + T * k := by omega
    rw [hb, Nat.add_mul_mod_self_left]
    exact Nat.mod_eq_of_lt ht
  · rintro ⟨h1, h2⟩
    have hdm := Nat.div_add_mod b T
    refine ⟨by omega, h1, b / T, by omega⟩

/-- A block index below the block total keeps its rows inside the image. -/
lemma blocks_mul_lt (H B b : ℕ) (hb : b < totalBlocks H B) : b * B < H := by
  unfold totalBlocks at hb
  have h1 := Nat.div_mul_le_self (H + B - 1) B
  have h2 : b + 1 ≤ (H + B - 1) / B := hb
  have h3 : (b + 1) * B ≤ (H + B - 1) / B * B :=
    Nat.mul_le_mul_right _ h2
  have h4 : (b + 1) * B = b * B + B := by ring
  -- B = 0 would make the division by B zero, contradicting hb
  rcases Nat.eq_zero_or_pos B with rfl | hB
  · simp [Nat.div_zero] at hb
  · omega

/-- Membership in the row list of one block. -/
lemma mem_blockRows (H B b j : ℕ) (hB : 1 ≤ B) :
    j ∈ blockRows H B b ↔
      H - 1 - b * B + 1 - B ≤ j ∧ j ≤ H - 1 - b * B := by
  unfold blockRows
  simp only [List.mem_map, List.mem_range]
  generalize H - 1 - b * B = s
  constructor
  · rintro ⟨k, hk, rfl⟩
    omega
  · rintro ⟨h1, h2⟩
    exact ⟨s - j, by omega, by omega⟩

/-- Membership in the pixel indices of one row. -/
lemma mem_rowWrites (W H j idx : ℕ) :
    idx ∈ rowWrites W H j ↔
      (H - 1 - j) * W ≤ idx ∧ idx < (H - 1 - j) * W + W := by
  unfold rowWrites
  simp only [List.mem_map, List.mem_range]
  generalize (H - 1 - j) * W = s
  constructor
  · rintro ⟨i, hi, rfl⟩
    omega
  · rintro ⟨h1, h2⟩
    exact ⟨idx - s, by omega, by omega⟩

/-- Any natural is below the next multiple of a positive divisor. -/
lemma lt_div_succ_mul (a b : ℕ) (hb : 0 < b) : a < (a / b + 1) * b := by
  have h1 := Nat.div_add_mod a b
  have h2 : a % b < b := Nat.mod_lt a hb
  have h3 : (a / b + 1) * b = b * (a / b) + b := by ring
  omega

/-- The characterisation behind C5: worker `t < T` writes pixel index `idx`
iff `idx` is inside the buffer and the block of its row is congruent to `t`
modulo the worker count. -/
lemma mem_workerWrites (W H B T t idx : ℕ) (hW : 1 ≤ W) (hH : 1 ≤ H)
    (hB : 1 ≤ B) (hT : 1 ≤ T) (ht : t < T) :
    idx ∈ workerWrites W H B T t ↔
      idx < W * H ∧ idx / W / B % T = t := by
  unfold workerWrites
  rw [List.mem_flatMap]
  constructor
  · rintro ⟨b, hb, hrest⟩
    rw [List.mem_flatMap] at hrest
    obtain ⟨j, hj, hidx⟩ := hrest
    rw [mem_rrBlocks_start _ _ _ _ hT ht] at hb
    rw [mem_blockRows _ _ _ _ hB] at hj
    rw [mem_rowWrites] at hidx
    have hbB : b * B < H := blocks_mul_lt H B b hb.1
    have hrow : H - 1 - j = b * B + (H - 1 - b * B - j) := by omega
    have hjr : H - 1 - j < b * B + B := by omega
    have hdivW : idx / W = H - 1 - j := by
      refine Nat.div_eq_of_lt_le hidx.1 ?_
      have : (H - 1 - j + 1) * W = (H - 1 - j) * W + W := by ring
      omega
    have hdivB : (H - 1 - j) / B = b := by
      refine Nat.div_eq_of_lt_le (by omega) ?_
      have : (b + 1) * B = b * B + B := by ring
      omega
    refine ⟨?_, ?_⟩
    · have h5 : (H - 1 - j) * W + W ≤ H * W := by
        have h6 : (H - 1 - j + 1) * W = (H - 1 - j) * W + W := by ring
        have h7 : (H - 1 - j + 1) * W ≤ H * W :=
          Nat.mul_le_mul_right _ (by omega)
        omega
      have h8 : H * W = W * H := by ring
      omega
    · rw [hdivW, hdivB]
      exact hb.2
  · rintro ⟨h1, h2⟩
    have hrowH : idx / W < H := by
      rw [Nat.div_lt_iff_lt_mul (by omega : 0 < W)]
      have hc : H * W = W * H := by ring
      omega
    have hv1 : idx / W * W ≤ idx := Nat.div_mul_le_self _ _
    have hv2 : idx < (idx / W + 1) * W := lt_div_succ_mul _ _ (by omega)
    have hvB : idx / W / B * B ≤ idx / W := Nat.div_mul_le_self _ _
    have hvB2 : idx / W < (idx / W / B + 1) * B :=
      lt_div_succ_mul _ _ (by omega)
    have e1 : (idx / W + 1) * W = idx / W * W + W := by ring
    have e2 : (idx / W / B + 1) * B = idx / W / B * B + B := by ring
    generalize hqB : idx / W / B = qB at *
    generalize hq : idx / W = q at *
    generalize hpW : q * W = pW at *
    generalize hpB : qB * B = pB at *
    refine ⟨qB, ?_, ?_⟩
    · rw [mem_rrBlocks_start _ _ _ _ (by omega) ht]
      refine ⟨?_, h2⟩
      unfold totalBlocks
      rw [Nat.lt_iff_add_one_le, Nat.le_div_iff_mul_le (by omega : 0 < B)]
      have e3 : (qB + 1) * B = pB + B := by rw [← hpB]; ring
      omega
    · rw [List.mem_flatMap]
      refine ⟨H - 1 - q, ?_, ?_⟩
      · rw [mem_blockRows _ _ _ _ hB]
        constructor <;> omega
      · rw [mem_rowWrites]
        have h10 : H - 1 - (H - 1 - q) = q := by omega
        rw [h10]
        omega

/-- C5. For any image `W × H` (both ≥ 1), block size ≥ 1 and worker count
`T ≥ 1`, the pixel-buffer indices written by the round-robin workers
`0, …, T-1` cover exactly `{0, …, W·H - 1}` (an index is written by some
worker iff it is inside the buffer), and no index is written by two
different workers. -/
theorem C5_worker_writes_partition (W H B T : ℕ) (hW : 1 ≤ W) (hH : 1 ≤ H)
    (hB : 1 ≤ B) (hT : 1 ≤ T) :
    (∀ idx, (∃ t, t < T ∧ idx ∈ workerWrites W H B T t) ↔ idx < W * H) ∧
    (∀ t₁ t₂ idx, t₁ < T → t₂ < T → t₁ ≠ t₂ →
      idx ∈ workerWrites W H B T t₁ → idx ∉ workerWrites W H B T t₂) := by
  constructor
  · intro idx
    constructor
    · rintro ⟨t, ht, hmem⟩
      exact ((mem_workerWrites W H B T t idx hW hH hB hT ht).mp hmem).1
    · intro hidx
      refine ⟨idx / W / B % T, Nat.mod_lt _ (by omega), ?_⟩
      rw [mem_workerWrites W H B T _ idx hW hH hB hT
        (Nat.mod_lt _ (by omega))]
      exact ⟨hidx, rfl⟩
  · intro t₁ t₂ idx ht₁ ht₂ hne hmem₁ hmem₂
    have h₁ := ((mem_workerWrites W H B T t₁ idx hW hH hB hT ht₁).mp hmem₁).2
    have h₂ := ((mem_workerWrites W H B T t₂ idx hW hH hB hT ht₂).mp hmem₂).2
    exact hne (h₁.symm.trans h₂)

/-- Witness for C5 on a concrete 3×5 image with block size 2 and two
workers, at pixel index 7. -/
theorem C5_worker_writes_partition_witness :
    ((∃ t, t < 2 ∧ 7 ∈ workerWrites 3 5 2 2 t) ↔ 7 < 3 * 5) ∧
    (7 ∈ workerWrites 3 5 2 2 0 → 7 ∉ workerWrites 3 5 2 2 1) :=
  ⟨(C5_worker_writes_partition 3 5 2 2 (by norm_num) (by norm_num)
      (by norm_num) (by norm_num)).1 7,
   (C5_worker_writes_partition 3 5 2 2 (by norm_num) (by norm_num)
      (by norm_num) (by norm_num)).2 0 1 7 (by norm_num) (by norm_num)
      (by norm_num)⟩
